import Mathlib

/-!
Verification of the transcriptr transcript-reconstruction tool (src/main.rs)
against its specification. The Rust program is shallowly embedded below:
machine floats (`f64` times) are modelled exactly by `ℚ` (all times occurring
in the program are finite decimals; NaN/infinity literals and sub-nanosecond
float effects are not modelled), panics (`unwrap`) are modelled as `Option`
failure / `Except.error`, and the file system is modelled by explicit state
passing of the output file's content.
-/

namespace Transcriptr

/-- One token from `results.items[]` after field extraction, per the data
model: `itemType` is the `"type"` field, `content` is
`alternatives[0].content`, `start_time` the optional `"start_time"` string
(`none` = field absent). -/
structure RawItem where
  itemType : String
  content : String
  start_time : Option String
deriving Repr, DecidableEq

/-- One element of a segment's `items` array
(`results.speaker_labels.segments[].items[]`). A field is `none` when it is
missing or not a JSON string (both make serde's `as_str()` return `None`,
main.rs 126-134). -/
structure SegItem where
  start_time : Option String
  speaker_label : Option String
deriving Repr, DecidableEq

/-- One parsed top-level JSON document, reduced to the two paths the program
reads. `segments` is `none` when `/results/speaker_labels/segments` is missing
or not an array (the document is then skipped for segments, main.rs 118-121);
each element is the label's `items` array, `none` when that array is missing
(`label["items"].as_array().unwrap()` then panics, main.rs 124).
`items` is `none` when `/results/items` is missing or not an array
(main.rs 141). -/
structure Doc where
  segments : Option (List (Option (List SegItem)))
  items : Option (List RawItem)
deriving Repr, DecidableEq

/-- A reconstructed output line: the Rust `(f64, String, String)` tuple pushed
into `lines` (main.rs 148, 177, 192). -/
structure Line where
  time : ℚ
  speaker : String
  text : String
deriving Repr, DecidableEq

/-- Value of a digit string read in base 10 (`0` for the empty string). -/
def digitsVal (cs : List Char) : ℕ :=
  cs.foldl (fun n c => 10 * n + (c.toNat - 48)) 0

/-- Models Rust `str::parse::<f64>()` on finite decimal literals
(`["-"|"+"] digits ["." digits]`, at least one digit), returning the exact
rational value; other strings (exponents, `inf`, `NaN`, garbage) are `none`.
Used only through `.getD 0`, mirroring `parse().unwrap_or(0.0)`
(main.rs 167). -/
def parseDecimal (s : String) : Option ℚ :=
  let signed : ℚ × List Char :=
    match s.data with
    | '-' :: rest => (-1, rest)
    | '+' :: rest => (1, rest)
    | cs => (1, cs)
  let ip := signed.2.takeWhile (fun c => c ≠ '.')
  let rest := signed.2.dropWhile (fun c => c ≠ '.')
  let fp := rest.drop 1
  if ip.all Char.isDigit && fp.all Char.isDigit && !(ip.isEmpty && fp.isEmpty)
  then some (signed.1 * ((digitsVal ip : ℚ) + (digitsVal fp : ℚ) / (10 : ℚ) ^ fp.length))
  else none

/-- The mutable state threaded through the reconstruction loop
(main.rs 148-156): the completed lines, the in-progress `line` text, its
`time`, the `speaker` of the open line, and the `current_speaker` candidate. -/
structure RecState where
  lines : List Line
  line : String
  time : ℚ
  speaker : String
  current_speaker : String
deriving Repr, DecidableEq

/-- Initial loop state (main.rs 148-156): no lines, empty text, time `0.0`,
speaker and current speaker both the sentinel string `"null"`. -/
def initState : RecState :=
  ⟨[], "", 0, "null", "null"⟩

/-- The speaker-change check of the loop body (main.rs 173-185): on a changed
speaker, flush the open line (unless its speaker is the empty string) and
restart the accumulator from this item's content; on an unchanged speaker and
a non-punctuation item, append a space and the content. -/
def speakerPhase (st : RecState) (itemType content : String) : RecState :=
  if st.current_speaker ≠ st.speaker then
    { st with
      lines := if st.speaker ≠ "" then st.lines ++ [⟨st.time, st.speaker, st.line⟩] else st.lines
      line := content
      speaker := st.current_speaker }
  else if itemType ≠ "punctuation" then
    { st with line := st.line ++ " " ++ content }
  else st

/-- One iteration of the reconstruction loop (main.rs 161-188). A timed item
looks its speaker up in the index (`none` models the
`speaker_start_times.get(..).unwrap()` panic on a missing entry, main.rs 166)
and updates `current_speaker` and `time`; an untimed punctuation item appends
its content to the open line (main.rs 168-171). Then the speaker-change check
runs. -/
def stepItem (lookup : String → Option String) (st : RecState) (item : RawItem) :
    Option RecState :=
  match item.start_time with
  | some ts =>
    match lookup ts with
    | none => none
    | some sp =>
      some (speakerPhase
        { st with current_speaker := sp, time := (parseDecimal ts).getD 0 }
        item.itemType item.content)
  | none =>
    some (speakerPhase
      (if item.itemType = "punctuation" then { st with line := st.line ++ item.content } else st)
      item.itemType item.content)

/-- The whole item loop (main.rs 159-189). -/
def foldItems (lookup : String → Option String) (items : List RawItem) : Option RecState :=
  items.foldlM (stepItem lookup) initState

/-- The reconstruction engine: run the loop, then push the final open
accumulator unconditionally (main.rs 192). -/
def reconstruct (lookup : String → Option String) (items : List RawItem) :
    Option (List Line) :=
  (foldItems lookup items).map
    (fun st => st.lines ++ [⟨st.time, st.speaker, st.line⟩])

/-- Lookup in the speaker index. The index is kept as the list of inserted
`(start_time, speaker_label)` pairs; a later insert for the same key shadows
an earlier one, exactly the Rust `HashMap::insert` behaviour (main.rs 135). -/
def lookupIndex (ix : List (String × String)) (k : String) : Option String :=
  (ix.reverse.find? (fun p => p.1 = k)).map (fun p => p.2)

/-- Ingest of one segment item (main.rs 126-135): a missing `start_time` or
`speaker_label` aborts with the corresponding structural error; otherwise the
pair is inserted into the index. -/
def insertSeg (ix : List (String × String)) (s : SegItem) :
    Except String (List (String × String)) :=
  match s.start_time with
  | none => .error "Error: Start time is missing in the speaker label item."
  | some st =>
    match s.speaker_label with
    | none => .error "Error: Speaker label is missing in the speaker label item."
    | some sl => .ok (ix ++ [(st, sl)])

/-- Ingest of one label block (main.rs 123-137): the `items` array must be
present (`as_array().unwrap()` panics otherwise, modelled as a fatal error),
then every segment item is inserted in order. -/
def ingestBlock (ix : List (String × String)) (block : Option (List SegItem)) :
    Except String (List (String × String)) :=
  match block with
  | none => .error "panicked: label items array is missing"
  | some segItems => segItems.foldlM insertSeg ix

/-- Ingest of one stream element (main.rs 98-144): a stream error aborts the
run (main.rs 99-115); otherwise the document's segments (if any) are folded
into the index and its items (if any) are appended to the item list. -/
def ingestDoc (acc : List (String × String) × List RawItem) (d : Except String Doc) :
    Except String (List (String × String) × List RawItem) := do
  let doc ← d
  let ix ←
    match doc.segments with
    | none => Except.ok acc.1
    | some labels => labels.foldlM ingestBlock acc.1
  Except.ok (ix, match doc.items with | none => acc.2 | some new => acc.2 ++ new)

/-- The whole ingest loop (main.rs 93-145), over the stream of parse results
of the concatenated top-level JSON documents. -/
def ingest (docs : List (Except String Doc)) :
    Except String (List (String × String) × List RawItem) :=
  docs.foldlM ingestDoc ([], [])

/-- Stable insertion by time into an already sorted list: the new line goes
after every strictly earlier line and before the first line that is not
strictly earlier. -/
def insertLine (l : Line) : List Line → List Line
  | [] => [l]
  | x :: xs => if x.time < l.time then x :: insertLine l xs else l :: x :: xs

/-- Models `lines.sort_by(|a, b| a.0.partial_cmp(&b.0).unwrap())`
(main.rs 196): Rust's `sort_by` is a stable sort, and a stable sort by a key
is extensionally unique, so stable insertion sort by `time` is the same
function. (`partial_cmp().unwrap()` panics on NaN; NaN does not arise in the
`ℚ` model.) -/
def sortLines (ls : List Line) : List Line :=
  ls.foldr insertLine []

/-- Truncation of a rational number of seconds toward zero: the whole-second
count of `time::Duration::seconds_f64(t)` (main.rs 205, 234). -/
def qtrunc (t : ℚ) : ℤ :=
  if 0 ≤ t then ⌊t⌋ else -⌊-t⌋

/-- Rust `f64::round`: round half away from zero (main.rs 256). -/
def rustRound (t : ℚ) : ℤ :=
  if 0 ≤ t then ⌊t + 1 / 2⌋ else -⌊-t + 1 / 2⌋

/-- Decomposition of a whole-second count into `(hours, minutes, seconds)`
as the renderers do it: `whole_hours()`, `whole_minutes() % 60`,
`whole_seconds() % 60` (main.rs 211-213, 239-241, 258); Rust `i64` division
and `%` truncate toward zero, i.e. `Int.tdiv` / `Int.tmod`. -/
def hmsTriple (total : ℤ) : ℤ × ℤ × ℤ :=
  (total.tdiv 3600, (total.tdiv 60).tmod 60, total.tmod 60)

/-- The `(hours, minutes, seconds)` timestamp of the text and HTML renderers:
derived from the float time truncated to whole seconds (main.rs 205-213). -/
def textHMS (t : ℚ) : ℤ × ℤ × ℤ :=
  hmsTriple (qtrunc t)

/-- The `(hours, minutes, seconds)` timestamp of the JSON renderer: derived
from the float time rounded to the nearest whole second,
`Duration::seconds(time.round() as i64)` (main.rs 256-258). -/
def jsonHMS (t : ℚ) : ℤ × ℤ × ℤ :=
  hmsTriple (rustRound t)

/-- `{:02}` formatting of an integer. -/
def pad2 (n : ℤ) : String :=
  if 0 ≤ n ∧ n < 10 then "0" ++ toString n else toString n

/-- One text-format output line including the newline `writeln!` appends
(main.rs 209-218). -/
def renderTextLine (speaker_format line_break : String) (l : Line) : String :=
  let hms := textHMS l.time
  "[" ++ pad2 hms.1 ++ ":" ++ pad2 hms.2.1 ++ ":" ++ pad2 hms.2.2 ++ "] " ++
    speaker_format.replace "\x7b\x7d" l.speaker ++ " " ++ l.text ++
    (if line_break = "auto" then "\n" else "") ++ "\n"

/-- One HTML-format output line (main.rs 236-244). -/
def renderHtmlLine (speaker_format : String) (l : Line) : String :=
  let hms := textHMS l.time
  "[" ++ pad2 hms.1 ++ ":" ++ pad2 hms.2.1 ++ ":" ++ pad2 hms.2.2 ++
    "] <span class=\"speaker\">" ++ speaker_format.replace "\x7b\x7d" l.speaker ++
    "</span>: " ++ l.text ++ "<br>" ++ "\n"

/-- One record of the JSON renderer's `transcription` array (main.rs 255-261);
string escaping and the pretty printer's whitespace are not modelled. -/
def renderJsonLine (l : Line) : String :=
  let hms := jsonHMS l.time
  "\x7b \"time\": \"" ++ pad2 hms.1 ++ ":" ++ pad2 hms.2.1 ++ ":" ++ pad2 hms.2.2 ++
    "\", \"speaker\": \"" ++ l.speaker ++ "\", \"line\": \"" ++ l.text ++ "\" \x7d"

/-- The output format chosen on the command line (main.rs 10-15). -/
inductive OutputFormat where
  | text
  | html
  | json
deriving Repr, DecidableEq

/-- The full rendered output for a line list (main.rs 199-267). -/
def renderOutput (fmt : OutputFormat) (speaker_format line_break : String)
    (ls : List Line) : String :=
  match fmt with
  | .text => String.join (ls.map (renderTextLine speaker_format line_break))
  | .html =>
    "<!DOCTYPE html>\n<html>\n<head>\n<title>Transcription</title>\n<style>\n.speaker \x7b font-weight: bold; \x7d\n</style>\n</head>\n<body>\n" ++
      String.join (ls.map (renderHtmlLine speaker_format)) ++ "</body>\n</html>\n"
  | .json =>
    "\x7b \"transcription\": [" ++
      String.intercalate ", " (ls.map renderJsonLine) ++ "] \x7d"

/-- The computational core of a run: ingest the document stream, reconstruct
the lines (`none` from `reconstruct` models the panics at main.rs 162/166),
and sort them for the renderer (main.rs 93-196). -/
def runPipeline (docs : List (Except String Doc)) : Except String (List Line) := do
  let st ← ingest docs
  match reconstruct (lookupIndex st.1) st.2 with
  | none => Except.error "panicked: called unwrap on a None value"
  | some lines => Except.ok (sortLines lines)

/-- A whole run writing to an output file, tracking the file's on-disk
content. `File::create` truncates the output file before any input is read
(main.rs 70-77), so the pre-existing content is discarded up front; rendered
output is written only after reconstruction fully completes (main.rs 199-267),
so an aborting run leaves the file empty. The first component is the run's
exit status, the second the file's final content. -/
def runToFile (preexisting : String) (fmt : OutputFormat)
    (speaker_format line_break : String) (docs : List (Except String Doc)) :
    Except String Unit × String :=
  let _ := preexisting
  match runPipeline docs with
  | .error e => (.error e, "")
  | .ok lines => (.ok (), renderOutput fmt speaker_format line_break lines)

/-! ### Helper lemmas -/

theorem except_bind_ok {ε α β : Type} (a : α) (f : α → Except ε β) :
    (Except.ok a >>= f : Except ε β) = f a := rfl

theorem except_bind_error {ε α β : Type} (e : ε) (f : α → Except ε β) :
    ((Except.error e : Except ε α) >>= f : Except ε β) = Except.error e := rfl

theorem option_bind_some {α β : Type} (a : α) (f : α → Option β) :
    ((some a : Option α) >>= f) = f a := rfl

/-- If a fold of an `Except`-valued step over a list succeeds, the step
succeeded at every element of the list (for some accumulator value). -/
theorem except_foldlM_ok_of_mem {α β : Type} {f : β → α → Except String β}
    {l : List α} {b r : β} (h : List.foldlM f b l = Except.ok r) {a : α}
    (ha : a ∈ l) : ∃ b1 r1, f b1 a = Except.ok r1 := by
  induction l generalizing b with
  | nil => cases ha
  | cons x xs ih =>
    rw [List.foldlM_cons] at h
    cases hfx : f b x with
    | error e =>
      rw [hfx, except_bind_error] at h
      simp at h
    | ok b1 =>
      rw [hfx, except_bind_ok] at h
      rcases List.mem_cons.mp ha with rfl | hmem
      · exact ⟨b, b1, hfx⟩
      · exact ih h hmem

/-- Over items that all lack a start time, the reconstruction loop never
fails, never flushes, and only the open line's text can change. -/
theorem foldlM_untimed (lookup : String → Option String) (items : List RawItem) :
    ∀ st : RecState, (∀ i ∈ items, i.start_time = none) →
      st.current_speaker = st.speaker →
      ∃ st1, List.foldlM (stepItem lookup) st items = some st1 ∧
        st1.lines = st.lines ∧ st1.time = st.time ∧ st1.speaker = st.speaker ∧
        st1.current_speaker = st.current_speaker := by
  induction items with
  | nil =>
    intro st _ _
    exact ⟨st, rfl, rfl, rfl, rfl, rfl⟩
  | cons i is ih =>
    intro st h hcs
    have hi : i.start_time = none := h i (List.mem_cons_self i is)
    have his : ∀ j ∈ is, j.start_time = none := fun j hj => h j (List.mem_cons_of_mem i hj)
    by_cases hty : i.itemType = "punctuation"
    · have hstep : stepItem lookup st i = some { st with line := st.line ++ i.content } := by
        simp [stepItem, hi, hty, speakerPhase, hcs]
      obtain ⟨st1, hfold, h1, h2, h3, h4⟩ :=
        ih { st with line := st.line ++ i.content } his hcs
      exact ⟨st1, by rw [List.foldlM_cons, hstep, option_bind_some]; exact hfold,
        h1, h2, h3, h4⟩
    · have hstep : stepItem lookup st i =
          some { st with line := st.line ++ " " ++ i.content } := by
        simp [stepItem, hi, hty, speakerPhase, hcs]
      obtain ⟨st1, hfold, h1, h2, h3, h4⟩ :=
        ih { st with line := st.line ++ " " ++ i.content } his hcs
      exact ⟨st1, by rw [List.foldlM_cons, hstep, option_bind_some]; exact hfold,
        h1, h2, h3, h4⟩

theorem sortLines_cons (x : Line) (xs : List Line) :
    sortLines (x :: xs) = insertLine x (sortLines xs) := rfl

theorem mem_insertLine {l z : Line} : ∀ {ys : List Line},
    z ∈ insertLine l ys ↔ z = l ∨ z ∈ ys := by
  intro ys
  induction ys with
  | nil => simp [insertLine]
  | cons y ys ih =>
    by_cases hc : y.time < l.time
    · rw [insertLine, if_pos hc]
      simp only [List.mem_cons, ih]
      tauto
    · rw [insertLine, if_neg hc]
      simp only [List.mem_cons]

theorem pairwise_insertLine (l : Line) (ys : List Line)
    (h : List.Pairwise (fun a b => a.time ≤ b.time) ys) :
    List.Pairwise (fun a b => a.time ≤ b.time) (insertLine l ys) := by
  induction ys with
  | nil => simp [insertLine]
  | cons y ys ih =>
    rw [List.pairwise_cons] at h
    obtain ⟨hy, hys⟩ := h
    by_cases hc : y.time < l.time
    · rw [insertLine, if_pos hc, List.pairwise_cons]
      refine ⟨?_, ih hys⟩
      intro z hz
      rcases mem_insertLine.mp hz with rfl | hzys
      · exact le_of_lt hc
      · exact hy z hzys
    · rw [insertLine, if_neg hc, List.pairwise_cons]
      refine ⟨?_, List.pairwise_cons.mpr ⟨hy, hys⟩⟩
      intro z hz
      rcases List.mem_cons.mp hz with rfl | hzys
      · exact not_lt.mp hc
      · exact le_trans (not_lt.mp hc) (hy z hzys)

theorem filter_insertLine_ne (l : Line) (t : ℚ) (h : l.time ≠ t) :
    ∀ ys : List Line, (insertLine l ys).filter (fun a => decide (a.time = t)) =
      ys.filter (fun a => decide (a.time = t)) := by
  intro ys
  induction ys with
  | nil => simp [insertLine, h]
  | cons y ys ih =>
    by_cases hc : y.time < l.time
    · rw [insertLine, if_pos hc]
      simp only [List.filter_cons, ih]
    · rw [insertLine, if_neg hc]
      simp [List.filter_cons, h]

theorem filter_insertLine_eq (l : Line) (t : ℚ) (h : l.time = t) :
    ∀ ys : List Line, (insertLine l ys).filter (fun a => decide (a.time = t)) =
      l :: ys.filter (fun a => decide (a.time = t)) := by
  intro ys
  induction ys with
  | nil => simp [insertLine, h]
  | cons y ys ih =>
    by_cases hc : y.time < l.time
    · have hyt : y.time ≠ t := by rw [← h]; exact ne_of_lt hc
      rw [insertLine, if_pos hc]
      simp [List.filter_cons, hyt, ih]
    · rw [insertLine, if_neg hc]
      simp [List.filter_cons, h]

theorem sortLines_pairwise (ls : List Line) :
    List.Pairwise (fun a b => a.time ≤ b.time) (sortLines ls) := by
  induction ls with
  | nil => simp [sortLines]
  | cons x xs ih =>
    rw [sortLines_cons]
    exact pairwise_insertLine x _ ih

theorem sortLines_filter (ls : List Line) (t : ℚ) :
    (sortLines ls).filter (fun a => decide (a.time = t)) =
      ls.filter (fun a => decide (a.time = t)) := by
  induction ls with
  | nil => rfl
  | cons x xs ih =>
    rw [sortLines_cons]
    by_cases hx : x.time = t
    · simp [filter_insertLine_eq x t hx, ih, List.filter_cons, hx]
    · simp [filter_insertLine_ne x t hx, ih, List.filter_cons, hx]

/-! ### Claim theorems -/

/-- C1: on the spec's example input (one segment mapping "1.0" to "spk_0";
items: a timed word "Hi" at "1.0" and an untimed punctuation "."), the engine
does NOT produce exactly one line. The flush guard tests for an empty speaker
string (main.rs 176) while the sentinel is "null" (main.rs 154), so the very
first speaker change also flushes the sentinel accumulator: the output is a
spurious (1.0, "null", "") line followed by the expected
(1.0, "spk_0", "Hi."). -/
theorem example_input_produces_two_lines :
    runPipeline [Except.ok ⟨some [some [⟨some "1.0", some "spk_0"⟩]],
        some [⟨"pronunciation", "Hi", some "1.0"⟩, ⟨"punctuation", ".", none⟩]⟩] =
      Except.ok [⟨1, "null", ""⟩, ⟨1, "spk_0", "Hi."⟩] := by
  with_unfolding_all rfl

/-- C2: a mid-stream speaker-change flush CAN emit the sentinel accumulator.
The guard `!speaker.is_empty()` (main.rs 176) does not match the sentinel
"null" (main.rs 154), so the first speaker change flushes (1.0, "null", "").
The final unconditional flush is the last element of the result, so
`dropLast` is exactly the list of mid-stream-flushed lines; its first element
here carries the sentinel speaker. -/
theorem midstream_flush_emits_sentinel :
    (reconstruct
        (fun ts => if ts = "1.0" then some "spk_0"
          else if ts = "2.0" then some "spk_1" else none)
        [⟨"pronunciation", "A", some "1.0"⟩,
          ⟨"pronunciation", "B", some "2.0"⟩]).map List.dropLast =
      some [⟨1, "null", ""⟩, ⟨2, "spk_0", "A"⟩] := by
  with_unfolding_all rfl

/-- C3: a flushed line's time is the start time of the token that TRIGGERED
the flush, not of the line's own first token: `time` is overwritten
(main.rs 167) before the flush reads it (main.rs 177). Here speaker spk_0's
line "A", whose only token starts at 1.0, is emitted with time 5.0 — the
start time of spk_1's first token. -/
theorem flushed_line_carries_trigger_time :
    runPipeline [Except.ok ⟨some [some [⟨some "1.0", some "spk_0"⟩,
        ⟨some "5.0", some "spk_1"⟩]],
        some [⟨"pronunciation", "A", some "1.0"⟩,
          ⟨"pronunciation", "B", some "5.0"⟩]⟩] =
      Except.ok [⟨1, "null", ""⟩, ⟨5, "spk_0", "A"⟩, ⟨5, "spk_1", "B"⟩] := by
  with_unfolding_all rfl

/-- C4: while the candidate speaker matches the open line's speaker, an
untimed punctuation token is appended to the open line's text with no
intervening space (main.rs 168-171), and a word token — timed (with its
looked-up speaker unchanged) or untimed — is appended with exactly one space
before it (main.rs 181-185); neither flushes a line. -/
theorem punctuation_no_space_word_one_space
    (lookup : String → Option String) (st : RecState) (i : RawItem)
    (hcs : st.current_speaker = st.speaker) :
    (i.itemType = "punctuation" → i.start_time = none →
      ∃ st1, stepItem lookup st i = some st1 ∧ st1.line = st.line ++ i.content ∧
        st1.lines = st.lines ∧ st1.speaker = st.speaker) ∧
    (i.itemType ≠ "punctuation" →
      (∀ ts, i.start_time = some ts → lookup ts = some st.speaker) →
      ∃ st1, stepItem lookup st i = some st1 ∧
        st1.line = st.line ++ " " ++ i.content ∧
        st1.lines = st.lines ∧ st1.speaker = st.speaker) := by
  constructor
  · intro hty hts
    refine ⟨{ st with line := st.line ++ i.content }, ?_, rfl, rfl, rfl⟩
    simp [stepItem, hts, hty, speakerPhase, hcs]
  · intro hty hlk
    cases hts : i.start_time with
    | none =>
      refine ⟨{ st with line := st.line ++ " " ++ i.content }, ?_, rfl, rfl, rfl⟩
      simp [stepItem, hts, hty, speakerPhase, hcs]
    | some ts =>
      refine ⟨{ st with current_speaker := st.speaker, time := (parseDecimal ts).getD 0, line := st.line ++ " " ++ i.content }, ?_, rfl, rfl, rfl⟩
      simp [stepItem, hts, hlk ts hts, speakerPhase, hty]

/-- Witness for `punctuation_no_space_word_one_space` at a concrete state and
item. -/
theorem punctuation_no_space_word_one_space_witness :
    ∃ st1, stepItem (fun _ => none) initState ⟨"punctuation", ".", none⟩ =
        some st1 ∧
      st1.line = "" ++ "." ∧ st1.lines = ([] : List Line) ∧ st1.speaker = "null" :=
  (punctuation_no_space_word_one_space (fun _ => none) initState
    ⟨"punctuation", ".", none⟩ rfl).1 rfl rfl

/-- C5: after all items are consumed the final open accumulator is flushed as
a Line unconditionally (main.rs 192), even when its speaker is still the
sentinel; in particular on any item list with zero timed items the engine
succeeds (no panic is reachable) and yields exactly one untimed sentinel
line. -/
theorem final_flush_unconditional :
    (∀ (lookup : String → Option String) (items : List RawItem) (st1 : RecState),
        foldItems lookup items = some st1 →
        reconstruct lookup items =
          some (st1.lines ++ [⟨st1.time, st1.speaker, st1.line⟩])) ∧
    (∀ (lookup : String → Option String) (items : List RawItem),
        (∀ i ∈ items, i.start_time = none) →
        ∃ text, reconstruct lookup items = some [⟨0, "null", text⟩]) := by
  constructor
  · intro lookup items st1 h
    simp [reconstruct, h]
  · intro lookup items h
    obtain ⟨st1, hfold, hlines, htime, hsp, _⟩ :=
      foldlM_untimed lookup items initState h rfl
    refine ⟨st1.line, ?_⟩
    have hf : foldItems lookup items = some st1 := hfold
    simp [reconstruct, hf, hlines, htime, hsp, initState]

/-- Witness for `final_flush_unconditional` at a concrete untimed input. -/
theorem final_flush_unconditional_witness :
    ∃ text, reconstruct (fun _ => none) [⟨"punctuation", ".", none⟩] =
      some [⟨0, "null", text⟩] :=
  final_flush_unconditional.2 (fun _ => none) [⟨"punctuation", ".", none⟩]
    (by intro i hi; rw [List.mem_singleton] at hi; subst hi; rfl)

/-- C6: the line sequence handed to the renderer is `sortLines` of the
reconstructed lines (main.rs 196), which is sorted by time ascending, and
lines with equal times keep their pre-sort relative order (for every time
value, filtering the sorted list gives exactly the filtered input list). -/
theorem renderer_receives_stable_sort :
    (∀ ls : List Line, List.Pairwise (fun a b => a.time ≤ b.time) (sortLines ls)) ∧
    (∀ (ls : List Line) (t : ℚ),
        (sortLines ls).filter (fun a => decide (a.time = t)) =
          ls.filter (fun a => decide (a.time = t))) ∧
    (∀ (docs : List (Except String Doc)) (ls : List Line),
        runPipeline docs = Except.ok ls → ∃ raw, ls = sortLines raw) := by
  refine ⟨sortLines_pairwise, sortLines_filter, ?_⟩
  intro docs ls h
  simp only [runPipeline] at h
  cases hing : ingest docs with
  | error e =>
    rw [hing, except_bind_error] at h
    simp at h
  | ok pr =>
    rw [hing, except_bind_ok] at h
    cases hrec : reconstruct (lookupIndex pr.1) pr.2 with
    | none =>
      rw [hrec] at h
      simp at h
    | some lines0 =>
      rw [hrec] at h
      have h2 : Except.ok (sortLines lines0) = Except.ok ls := h
      injection h2 with h3
      exact ⟨lines0, h3.symm⟩

/-- Witness for `renderer_receives_stable_sort`: the pipeline output on a
concrete input is an image of `sortLines`. -/
theorem renderer_receives_stable_sort_witness :
    ∃ raw, [Line.mk 0 "null" ""] = sortLines raw :=
  renderer_receives_stable_sort.2.2 [Except.ok ⟨none, none⟩] [⟨0, "null", ""⟩] rfl

/-- C7: a segment item whose `start_time` or `speaker_label` is missing or
not a string aborts the whole run with a structural error (main.rs 126-134);
the item is never skipped and no transcript is produced. -/
theorem segment_missing_field_aborts
    (docs : List (Except String Doc)) (d : Doc)
    (labels : List (Option (List SegItem))) (block : List SegItem) (s : SegItem)
    (hd : Except.ok d ∈ docs) (hseg : d.segments = some labels)
    (hb : some block ∈ labels) (hs : s ∈ block)
    (hbad : s.start_time = none ∨ s.speaker_label = none) :
    ∃ e, runPipeline docs = Except.error e := by
  cases hing : ingest docs with
  | error e =>
    exact ⟨e, by simp only [runPipeline]; rw [hing, except_bind_error]⟩
  | ok pr =>
    exfalso
    obtain ⟨acc, r, hdoc⟩ :=
      except_foldlM_ok_of_mem
        (show List.foldlM ingestDoc ([], []) docs = Except.ok pr from hing) hd
    simp only [ingestDoc, except_bind_ok, hseg] at hdoc
    cases hfold : List.foldlM ingestBlock acc.1 labels with
    | error e =>
      rw [hfold, except_bind_error] at hdoc
      simp at hdoc
    | ok ix =>
      obtain ⟨ix0, r0, hblk⟩ := except_foldlM_ok_of_mem hfold hb
      simp only [ingestBlock] at hblk
      obtain ⟨ix1, r1, hins⟩ := except_foldlM_ok_of_mem hblk hs
      rcases hbad with hb1 | hb2
      · simp [insertSeg, hb1] at hins
      · cases hst : s.start_time with
        | none => simp [insertSeg, hst] at hins
        | some v => simp [insertSeg, hst, hb2] at hins

/-- Witness for `segment_missing_field_aborts` at a concrete document whose
only segment item lacks `start_time`. -/
theorem segment_missing_field_aborts_witness :
    ∃ e, runPipeline [Except.ok ⟨some [some [⟨none, some "spk_0"⟩]], none⟩] =
      Except.error e :=
  segment_missing_field_aborts
    [Except.ok ⟨some [some [⟨none, some "spk_0"⟩]], none⟩]
    ⟨some [some [⟨none, some "spk_0"⟩]], none⟩
    [some [⟨none, some "spk_0"⟩]] [⟨none, some "spk_0"⟩] ⟨none, some "spk_0"⟩
    (List.mem_singleton.mpr rfl) rfl (List.mem_singleton.mpr rfl)
    (List.mem_singleton.mpr rfl) (Or.inl rfl)

/-- C8 counterexample: a run that aborts does NOT leave a pre-existing output
file untouched. `File::create` (main.rs 70-77) truncates the output file
before any input is read, so after this aborting run the file holds "" and
not its previous content. -/
theorem aborting_run_truncates_preexisting_file :
    (runToFile "old content" OutputFormat.text "\x7b\x7d:" "auto"
        [Except.error "malformed JSON"]).2 ≠ "old content" ∧
    (runToFile "old content" OutputFormat.text "\x7b\x7d:" "auto"
        [Except.error "malformed JSON"]).1 = Except.error "malformed JSON" := by
  constructor
  · show ("" : String) ≠ "old content"
    decide
  · rfl

/-- C8 amended: for every run that aborts with a parse, structural, or I/O
error, nothing is ever written to the output sink — rendered output is
produced only after reconstruction fully completes — so the output file ends
empty; it is truncated at startup rather than left untouched. -/
theorem aborting_run_writes_nothing (preexisting speaker_format line_break : String)
    (fmt : OutputFormat) (docs : List (Except String Doc)) (e : String)
    (h : runPipeline docs = Except.error e) :
    runToFile preexisting fmt speaker_format line_break docs =
      (Except.error e, "") := by
  simp [runToFile, h]

/-- Witness for `aborting_run_writes_nothing` at a concrete aborting run. -/
theorem aborting_run_writes_nothing_witness :
    runToFile "old content" OutputFormat.text "\x7b\x7d:" "auto"
        [Except.error "bad"] = (Except.error "bad", "") :=
  aborting_run_writes_nothing "old content" "\x7b\x7d:" "auto" OutputFormat.text
    [Except.error "bad"] "bad" rfl

/-- C9: the text renderer derives the HH:MM:SS timestamp from the float time
truncated to whole seconds (main.rs 205-213) while the JSON renderer rounds
to the nearest whole second first (main.rs 256-258); on any line whose
fractional seconds are at least one half the two timestamps differ. -/
theorem json_rounds_text_truncates (l : Line) (h0 : 0 ≤ l.time)
    (hf : 1 / 2 ≤ l.time - ⌊l.time⌋) :
    textHMS l.time = hmsTriple ⌊l.time⌋ ∧
    jsonHMS l.time = hmsTriple (⌊l.time⌋ + 1) ∧
    jsonHMS l.time ≠ textHMS l.time := by
  have htr : qtrunc l.time = ⌊l.time⌋ := if_pos h0
  have hfl : ⌊l.time + 1 / 2⌋ = ⌊l.time⌋ + 1 := by
    rw [Int.floor_eq_iff]
    push_cast
    constructor
    · linarith
    · linarith [Int.lt_floor_add_one l.time]
  have hrd : rustRound l.time = ⌊l.time⌋ + 1 := by
    rw [rustRound, if_pos h0, hfl]
  have hs : (0 : ℤ) ≤ ⌊l.time⌋ := Int.floor_nonneg.mpr h0
  refine ⟨by rw [textHMS, htr], by rw [jsonHMS, hrd], ?_⟩
  rw [textHMS, jsonHMS, htr, hrd]
  intro heq
  rw [hmsTriple, hmsTriple, Prod.mk.injEq, Prod.mk.injEq] at heq
  have h3 := heq.2.2
  rw [Int.tmod_eq_emod (by omega) (by norm_num),
    Int.tmod_eq_emod hs (by norm_num)] at h3
  omega

/-- Witness for `json_rounds_text_truncates` at the time 3/2 seconds. -/
theorem json_rounds_text_truncates_witness :
    jsonHMS ((3 : ℚ) / 2) ≠ textHMS ((3 : ℚ) / 2) :=
  (json_rounds_text_truncates ⟨3 / 2, "spk_0", "Hi."⟩ (by norm_num)
    (by norm_num)).2.2

/-- C10: a timed punctuation item whose looked-up speaker equals the open
line's speaker is silently dropped: the timed branch skips the content append
(main.rs 164-171 is an if/else-if chain) and the unchanged-speaker branch
skips punctuation (main.rs 181), so neither the open line's text nor the
flushed lines change — only the candidate time and speaker are updated. -/
theorem timed_punctuation_dropped
    (lookup : String → Option String) (st : RecState) (i : RawItem) (ts : String)
    (hty : i.itemType = "punctuation") (hts : i.start_time = some ts)
    (hlk : lookup ts = some st.speaker) :
    ∃ st1, stepItem lookup st i = some st1 ∧ st1.line = st.line ∧
      st1.lines = st.lines ∧ st1.speaker = st.speaker := by
  refine ⟨{ st with current_speaker := st.speaker, time := (parseDecimal ts).getD 0 }, ?_, rfl, rfl, rfl⟩
  simp [stepItem, hts, hlk, speakerPhase, hty]

/-- Witness for `timed_punctuation_dropped` at a concrete state and item. -/
theorem timed_punctuation_dropped_witness :
    ∃ st1, stepItem (fun _ => some "spk_0") ⟨[], "Hi", 1, "spk_0", "spk_0"⟩
        ⟨"punctuation", ".", some "2.0"⟩ = some st1 ∧
      st1.line = "Hi" ∧ st1.lines = ([] : List Line) ∧ st1.speaker = "spk_0" :=
  timed_punctuation_dropped (fun _ => some "spk_0")
    ⟨[], "Hi", 1, "spk_0", "spk_0"⟩ ⟨"punctuation", ".", some "2.0"⟩ "2.0"
    rfl rfl rfl

end Transcriptr
